import Mathlib

/-!
Shallow embedding of the stochastic solvers in copt/randomized.py
(minimizelp_SAGA, _factory_SAGA_epoch and its prox closures, minimize_BCD
and its inner _bcd_algorithm), over exact rational arithmetic.

Conventions:
  * numpy arrays become List ℚ; machine floats become ℚ (the spec's claims
    are stated up to floating-point error, so exact arithmetic is the
    intended semantics);
  * Python exceptions become an explicit Except PyError result;
  * np.random.shuffle is modelled by an oracle perms : Nat -> List Nat
    giving the shuffled index order of each pass, since the visiting order
    is drawn from an external random source;
  * Python range(a, b) becomes pyRange a b;
  * the loss object f and penalty object g passed to minimize_BCD come from
    copt.utils, which is not part of the sources under verification; their
    members (partial_gradient_factory result, prox_factory result,
    lipschitz_constant value, function evaluation) are carried as opaque
    fields of a record, and utils.ZeroLoss is modelled from the spec.
-/

unseal Rat.add Rat.mul Rat.inv Rat.sub

/-- Python range(a, b): the list [a, a+1, ..., b-1], empty when b <= a. -/
def pyRange (a b : Nat) : List Nat := List.range' a (b - a)

/-- Exceptions that the embedded Python code can raise. -/
inductive PyError where
  | valueError : PyError
  | nameErrorA : PyError
deriving DecidableEq

/-- Mutable state threaded through minimizelp_SAGA's epoch loop: the
coefficient vector x together with the two SAGA memory tables. -/
structure SAGAState where
  x : List ℚ
  memoryGradient : List ℚ
  gradientAverage : List ℚ
deriving DecidableEq

/-- Result record of minimizelp_SAGA (scipy OptimizeResult fields that the
function fills in; message is the constant empty string and is omitted). -/
structure SAGAResult where
  x : List ℚ
  success : Bool
  nit : Nat
deriving DecidableEq

/-- Value of np.abs(x - x_old).sum() for two coefficient vectors of equal
length, the coefficient-change criterion of minimizelp_SAGA line 107. -/
def l1diff (a b : List ℚ) : ℚ := ((a.zip b).map (fun p => |p.1 - p.2|)).sum

/-- Loop body of minimizelp_SAGA lines 99-109: for nit in range(max_iter),
remember x_old, run one epoch (callback is None by default and omitted),
then break with success = True when np.abs(x - x_old).sum() < tol.
The list argument is the remaining range of epoch indices; the pair carries
the current state and the current value of the loop variable nit. -/
def sagaEpochs (epoch : Nat → SAGAState → SAGAState) (tol : ℚ) :
    List Nat → SAGAState × Nat → SAGAState × Bool × Nat
  | [], (st, m) => (st, false, m)
  | n :: rest, (st, _) =>
      let st' := epoch n st
      if l1diff st'.x st.x < tol then (st', true, n)
      else sagaEpochs epoch tol rest (st', n)

/-- The full epoch loop of minimizelp_SAGA lines 97-113: success and nit
start at False and 0, the loop runs over range(max_iter), and the function
returns OptimizeResult(x=x, success=success, nit=nit). -/
def sagaDriver (epoch : Nat → SAGAState → SAGAState) (tol : ℚ)
    (st0 : SAGAState) (max_iter : Nat) : SAGAResult :=
  let r := sagaEpochs epoch tol (pyRange 0 max_iter) (st0, 0)
  ⟨r.1.x, r.2.1, r.2.2⟩

/-- State reached after the first k epochs when no break occurs. -/
def sagaIter (epoch : Nat → SAGAState → SAGAState) (st0 : SAGAState) :
    Nat → SAGAState
  | 0 => st0
  | k + 1 => epoch k (sagaIter epoch st0 k)

/-- The coefficient-change stopping criterion fires at epoch k: the change
of x produced by epoch k has L1 norm strictly below tol. -/
def sagaTrigger (epoch : Nat → SAGAState → SAGAState) (tol : ℚ)
    (st0 : SAGAState) (k : Nat) : Prop :=
  l1diff (epoch k (sagaIter epoch st0 k)).x (sagaIter epoch st0 k).x < tol

instance (epoch : Nat → SAGAState → SAGAState) (tol : ℚ) (st0 : SAGAState)
    (k : Nat) : Decidable (sagaTrigger epoch tol st0 k) := by
  unfold sagaTrigger
  infer_instance

/-- Soft-threshold expression max(v - beta*g, 0) - max(-v - beta*g, 0),
the value computed (and then discarded) by the beta > 0 prox closure of
_factory_SAGA_epoch, lines 120-121. -/
def softThreshold (beta v gamma : ℚ) : ℚ :=
  max (v - beta * gamma) 0 - max (-v - beta * gamma) 0

/-- The beta > 0 prox closure defined at lines 119-121 of
_factory_SAGA_epoch: its body evaluates the soft-threshold expression but
contains no return statement, so as a Python function it returns None. -/
def saga_prox_pos (beta x step_size : ℚ) : Option ℚ :=
  let _ := softThreshold beta x step_size
  none

/-- The beta == 0 prox closure of lines 123-125: returns its argument. -/
def saga_prox_zero (x step_size : ℚ) : Option ℚ :=
  let _ := step_size
  some x

/-- Embedding of _factory_SAGA_epoch, lines 116-179.  After choosing a prox
closure by the sign of beta (raising ValueError for beta < 0, line 127),
the factory body executes the statement A_data = A.data at line 129, but no
name A is bound in any enclosing scope, so for beta >= 0 the call raises
NameError before the inner _saga_algorithm closure could be produced (that
closure additionally reads the unbound names partial_gradient, b, d and
f_alpha).  The ok value type records what the factory was meant to return:
an epoch-iteration function over the SAGA state. -/
def factory_SAGA_epoch (f_deriv : ℚ → ℚ → ℚ) (alpha beta : ℚ) :
    Except PyError (Nat → SAGAState → SAGAState) :=
  let _ := f_deriv
  let _ := alpha
  if 0 < beta then Except.error PyError.nameErrorA
  else if beta = 0 then Except.error PyError.nameErrorA
  else Except.error PyError.valueError

/-- Embedding of minimizelp_SAGA, lines 10-113: copy x0 (n_features is
x0.size), raise ValueError when step_size is None (lines 84-86), call
_factory_SAGA_epoch (line 91), zero-initialize the memory tables (lines
94-95), then run the epoch loop and return the OptimizeResult. -/
def minimizelp_SAGA (f_deriv : ℚ → ℚ → ℚ) (n_samples : Nat) (x0 : List ℚ)
    (alpha beta : ℚ) (step_size : Option ℚ) (max_iter : Nat) (tol : ℚ) :
    Except PyError SAGAResult :=
  match step_size with
  | none => Except.error PyError.valueError
  | some _ =>
      match factory_SAGA_epoch f_deriv alpha beta with
      | Except.error e => Except.error e
      | Except.ok epoch =>
          Except.ok (sagaDriver epoch tol
            ⟨x0, List.replicate n_samples 0, List.replicate x0.length 0⟩
            max_iter)

/-- Compressed sparse matrix view (CSR or CSC): the three parallel arrays
data, indices and indptr, exactly as X_csr / X_csc expose them at lines
253-254 and as the inner loops consume them. -/
structure SparseMat where
  data : List ℚ
  indices : List Nat
  indptr : List Nat
deriving DecidableEq

/-- The index range of the stored entries of the j-th major slice (a column
of a CSC view, or a row of a CSR view): range(indptr[j], indptr[j+1]). -/
def colRange (M : SparseMat) (j : Nat) : List Nat :=
  pyRange (M.indptr.getD j 0) (M.indptr.getD (j + 1) 0)

/-- Matrix entry A[i, j] read off a CSC view: the sum of the stored values
of column j whose row index is i. -/
def cscEntry (M : SparseMat) (i j : Nat) : ℚ :=
  (((colRange M j).filter (fun k => M.indices.getD k 0 == i)).map
    (fun k => M.data.getD k 0)).sum

/-- Matrix entry A[i, j] read off a CSR view: the sum of the stored values
of row i whose column index is j. -/
def csrEntry (M : SparseMat) (i j : Nat) : ℚ :=
  (((colRange M i).filter (fun k => M.indices.getD k 0 == j)).map
    (fun k => M.data.getD k 0)).sum

/-- Dot product of row i of a CSR view with the vector x, as computed by
the recompute loop at lines 243-247: p accumulates x[j_idx] * A_data[k]
over the stored entries of row i. -/
def csrRowDot (M : SparseMat) (x : List ℚ) (i : Nat) : ℚ :=
  ((colRange M i).map
    (fun k => x.getD (M.indices.getD k 0) 0 * M.data.getD k 0)).sum

/-- Incremental update of the cached prediction at lines 237-239: for each
stored entry of CSC column j, Ax[i_idx] += A_csc_data[k] * diff where diff
is x_new - x[j]. -/
def updateAx (M : SparseMat) (j : Nat) (diff : ℚ) (Ax : List ℚ) : List ℚ :=
  (colRange M j).foldl
    (fun A k =>
      A.set (M.indices.getD k 0)
        (A.getD (M.indices.getD k 0) 0 + M.data.getD k 0 * diff)) Ax

/-- Full recomputation of the cached prediction at lines 242-249: for every
sample i in range(n_samples), Ax[i] is overwritten with the dot product of
CSR row i and the current x. -/
def recomputeAx (M : SparseMat) (x : List ℚ) (n_samples : Nat)
    (Ax : List ℚ) : List ℚ :=
  (List.range n_samples).foldl (fun A i => A.set i (csrRowDot M x i)) Ax

/-- Data closed over by _bcd_algorithm: the partial-gradient and prox
functions produced by the factories, the two sparse views, the labels, the
(resolved) step size, f.alpha and the problem dimensions. -/
structure BCDParams where
  pg : ℚ → ℚ → ℚ
  prox : ℚ → ℚ → ℚ
  csc : SparseMat
  csr : SparseMat
  b : List ℚ
  stepSize : ℚ
  alpha : ℚ
  nSamples : Nat
  nFeatures : Nat

/-- Mutable state of _bcd_algorithm: the coefficient vector x and the
cached prediction Ax. -/
structure BCDState where
  x : List ℚ
  Ax : List ℚ
deriving DecidableEq

/-- Body of the inner loop of _bcd_algorithm for one feature j, lines
228-249: accumulate grad_j over the stored entries of CSC column j (each
term divided by n_samples), form x_new by prox of the forward step,
incrementally update Ax over the same entries, overwrite x[j], and then,
when the literal feature index j equals 0, fully recompute Ax from the CSR
view. -/
def bcdFeatureStep (P : BCDParams) (st : BCDState) (j : Nat) : BCDState :=
  let gradJ := ((colRange P.csc j).map
    (fun k =>
      P.pg (st.Ax.getD (P.csc.indices.getD k 0) 0)
          (P.b.getD (P.csc.indices.getD k 0) 0)
        * P.csc.data.getD k 0 / (P.nSamples : ℚ))).sum
  let xj := st.x.getD j 0
  let xNew := P.prox (xj - P.stepSize * (gradJ + P.alpha * xj)) P.stepSize
  let Ax1 := updateAx P.csc j (xNew - xj) st.Ax
  let x1 := st.x.set j xNew
  if j = 0 then ⟨x1, recomputeAx P.csr x1 P.nSamples Ax1⟩ else ⟨x1, Ax1⟩

/-- One pass of _bcd_algorithm, line 228: visit the features in the order
given by the (shuffled) index list. -/
def bcdEpoch (P : BCDParams) (perm : List Nat) (st : BCDState) : BCDState :=
  perm.foldl (bcdFeatureStep P) st

/-- Embedding of _bcd_algorithm, lines 220-251: it starts at 0, the outer
loop runs for it in range(1, max_iter) with a fresh shuffled order perms it
per pass, and the function returns (it, None).  The trace_x buffer and tol
are received but never consulted by the body, exactly as in the source. -/
def bcdAlgorithm (P : BCDParams) (max_iter : Nat) (perms : Nat → List Nat)
    (trace_x : List (List ℚ)) (tol : ℚ) (st0 : BCDState) :
    BCDState × Nat × Option ℚ :=
  let _ := trace_x
  let _ := tol
  let r := (pyRange 1 max_iter).foldl
    (fun (p : BCDState × Nat) it => (bcdEpoch P (perms it) p.1, it)) (st0, 0)
  (r.1, r.2, none)

/-- The smooth-loss object f passed to minimize_BCD.  The object itself is
built by copt.utils, which is outside the verified sources; its fields are
therefore carried as data.  Modelled from the spec: csr and csc are the
CSR/CSC views of the design matrix A (built at lines 253-254 from f.A, so
both represent the same matrix, and f.A.dot is row-wise dot product through
the CSR view); lipschitz is the value of f.lipschitz_constant('features');
pg is the per-sample partial derivative returned by
partial_gradient_factory; feval is the objective value f(x). -/
structure SmoothLoss where
  csr : SparseMat
  csc : SparseMat
  b : List ℚ
  alpha : ℚ
  nSamples : Nat
  nFeatures : Nat
  lipschitz : ℚ
  pg : ℚ → ℚ → ℚ
  feval : List ℚ → ℚ

/-- The penalty object g: its prox and its value.  Modelled from the spec:
a separable penalty exposing a proximal operator. -/
structure Penalty where
  prox : ℚ → ℚ → ℚ
  geval : List ℚ → ℚ

/-- Modelled from the spec: utils.ZeroLoss (not under the verified
sources), the zero penalty whose prox is the identity and whose value is
zero, substituted at line 203 when g is None. -/
def ZeroLoss : Penalty := ⟨fun v _ => v, fun _ => 0⟩

/-- Initial coefficient vector of minimize_BCD, lines 198-201: zeros of
size f.n_features when x0 is None, otherwise a copy of x0. -/
def bcdX0 (f : SmoothLoss) (x0 : Option (List ℚ)) : List ℚ :=
  x0.getD (List.replicate f.nFeatures 0)

/-- Resolved step size of minimize_BCD, lines 204-205: when step_size is
None the value 1 / f.lipschitz_constant('features') is substituted. -/
def bcdStepOf (f : SmoothLoss) (step_size : Option ℚ) : ℚ :=
  step_size.getD (1 / f.lipschitz)

/-- The closure data handed to _bcd_algorithm, lines 207-213 and 262-264. -/
def bcdParamsOf (f : SmoothLoss) (g : Penalty) (step : ℚ) : BCDParams :=
  ⟨f.pg, g.prox, f.csc, f.csr, f.b, step, f.alpha, f.nSamples, f.nFeatures⟩

/-- The state entering _bcd_algorithm: the initial coefficients xk and the
cached prediction Ax = f.A.dot(xk) of line 207, computed row-wise through
the CSR view. -/
def bcdInitState (f : SmoothLoss) (xk : List ℚ) : BCDState :=
  ⟨xk, (List.range f.nSamples).map (fun i => csrRowDot f.csr xk i)⟩

/-- Result record of minimize_BCD (line 276-278).  The wall-clock
trace_time sequence is not modelled. -/
structure BCDResult where
  x : List ℚ
  success : Bool
  nit : Nat
  trace_func : List ℚ
  certificate : Option ℚ
deriving DecidableEq

/-- Embedding of minimize_BCD, lines 182-278: resolve x0, g and step_size,
initialize Ax = f.A.dot(xk), allocate the trace buffer as an all-zero
max_iter x n_features array when trace is requested (line 215-218), run
_bcd_algorithm, and afterwards, when trace is requested, rebuild trace_func
as f(trace_x[i]) + g(trace_x[i]) for i in range(n_iter) (lines 267-275);
success stays the False it was initialized to at line 210. -/
def minimize_BCD (f : SmoothLoss) (g : Option Penalty)
    (x0 : Option (List ℚ)) (step_size : Option ℚ) (max_iter : Nat)
    (trace : Bool) (tol : ℚ) (perms : Nat → List Nat) : BCDResult :=
  let xk := bcdX0 f x0
  let gP := g.getD ZeroLoss
  let step := bcdStepOf f step_size
  let trace_x : List (List ℚ) :=
    if trace then List.replicate max_iter (List.replicate f.nFeatures 0)
    else []
  let r := bcdAlgorithm (bcdParamsOf f gP step) max_iter perms trace_x tol
    (bcdInitState f xk)
  let n_iter := r.2.1
  let trace_func :=
    if trace then
      (List.range n_iter).map
        (fun i => f.feval (trace_x.getD i []) + gP.geval (trace_x.getD i []))
    else []
  ⟨r.1.x, false, n_iter, trace_func, r.2.2⟩

/-- State after the first k passes of _bcd_algorithm, pass it of the outer
loop using the shuffled order perms it (the loop variable it starts at 1). -/
def bcdNthState (P : BCDParams) (perms : Nat → List Nat) (st0 : BCDState) :
    Nat → BCDState
  | 0 => st0
  | k + 1 => bcdEpoch P (perms (k + 1)) (bcdNthState P perms st0 k)

/-- Concrete one-sample, one-feature least-squares instance: design matrix
A = [[1]] (identical in CSR and CSC form), label b = [2], squared loss with
partial derivative p - b, Lipschitz constant 2, no regularization. -/
def matC1 : SparseMat := ⟨[1], [0], [0, 1]⟩

def fC : SmoothLoss :=
  ⟨matC1, matC1, [2], 0, 1, 1, 2, fun p bi => p - bi,
    fun x => (x.getD 0 0 - 2) * (x.getD 0 0 - 2) / 2⟩

/-- Shuffle oracle for the one-feature instance: the only permutation. -/
def permsC : Nat → List Nat := fun _ => [0]

/-- Concrete three-sample, two-feature instance with design matrix
A = [[1,0],[0,1],[0,0]] (sample 2 is an all-zero row), labels b = [1,1,0],
squared-loss partial derivative p - b, no regularization. -/
def cscC6 : SparseMat := ⟨[1, 1], [0, 1], [0, 1, 2]⟩

def csrC6 : SparseMat := ⟨[1, 1], [0, 1], [0, 1, 2, 2]⟩

def fC6 : SmoothLoss :=
  ⟨csrC6, cscC6, [1, 1, 0], 0, 3, 2, 1, fun p bi => p - bi, fun _ => 0⟩

def pC6 : BCDParams := bcdParamsOf fC6 ZeroLoss (1/2)

/-- A state whose cached prediction is stale at the all-zero sample row 2
(value 999 instead of 0), used to observe when the full recompute runs. -/
def stC6 : BCDState := ⟨[0, 0], [0, 0, 999]⟩

/-- Well-formedness of the sparse views consumed by _bcd_algorithm: stored
CSC row indices lie below n_samples, stored CSR column indices lie below
n_features, the indptr arrays point inside the indices arrays, and the two
views represent the same matrix entrywise (both are built from f.A at
lines 253-254). -/
def BCDWellFormed (P : BCDParams) : Prop :=
  (∀ k, k < P.csc.indices.length → P.csc.indices.getD k 0 < P.nSamples)
  ∧ (∀ j, j ≤ P.nFeatures →
      P.csc.indptr.getD j 0 ≤ P.csc.indices.length)
  ∧ (∀ k, k < P.csr.indices.length → P.csr.indices.getD k 0 < P.nFeatures)
  ∧ (∀ i, i ≤ P.nSamples →
      P.csr.indptr.getD i 0 ≤ P.csr.indices.length)
  ∧ (∀ i, i < P.nSamples → ∀ j, j < P.nFeatures →
      csrEntry P.csr i j = cscEntry P.csc i j)

instance (P : BCDParams) : Decidable (BCDWellFormed P) := by
  unfold BCDWellFormed
  infer_instance

/-- The cached-prediction invariant of the BCD engine: between coordinate
updates, Ax[i] equals the i-th row of A (read off the CSC view) dotted
with the current x, for every sample i. -/
def AxInv (P : BCDParams) (st : BCDState) : Prop :=
  ∀ i, i < P.nSamples →
    st.Ax.getD i 0
      = ∑ j ∈ Finset.range P.nFeatures, cscEntry P.csc i j * st.x.getD j 0

instance (P : BCDParams) (st : BCDState) : Decidable (AxInv P st) := by
  unfold AxInv
  infer_instance

theorem mem_pyRange {k a b : Nat} : k ∈ pyRange a b ↔ a ≤ k ∧ k < b := by
  unfold pyRange
  rw [List.mem_range'_1]
  omega

theorem pyRange_concat {a b : Nat} (h : a ≤ b) :
    pyRange a (b + 1) = pyRange a b ++ [b] := by
  unfold pyRange
  have h1 : b + 1 - a = (b - a) + 1 := by omega
  rw [h1, List.range'_1_concat]
  have h2 : a + (b - a) = b := by omega
  rw [h2]

theorem pyRange_cons {a b : Nat} (h : a < b) :
    pyRange a b = a :: pyRange (a + 1) b := by
  unfold pyRange
  have h1 : b - a = (b - (a + 1)) + 1 := by omega
  rw [h1, List.range'_succ]

theorem pyRange_self (a : Nat) : pyRange a a = [] := by
  unfold pyRange
  simp

theorem getD_set_of_ne (l : List ℚ) (i j : Nat) (a : ℚ) (h : i ≠ j) :
    (l.set i a).getD j 0 = l.getD j 0 := by
  simp [List.getD_eq_getElem?_getD, List.getElem?_set_ne h]

theorem getD_set_self (l : List ℚ) (i : Nat) (a : ℚ) (h : i < l.length) :
    (l.set i a).getD i 0 = a := by
  simp [List.getD_eq_getElem?_getD, List.getElem?_set_self h]

theorem foldl_upd_length (M : SparseMat) (diff : ℚ) :
    ∀ (ks : List Nat) (Ax : List ℚ),
      (ks.foldl (fun A k => A.set (M.indices.getD k 0)
          (A.getD (M.indices.getD k 0) 0 + M.data.getD k 0 * diff)) Ax).length
        = Ax.length
  | [], _ => rfl
  | k :: ks, Ax => by
      simp only [List.foldl_cons]
      rw [foldl_upd_length M diff ks]
      exact List.length_set ..

theorem updateAx_length (M : SparseMat) (j : Nat) (diff : ℚ) (Ax : List ℚ) :
    (updateAx M j diff Ax).length = Ax.length :=
  foldl_upd_length M diff (colRange M j) Ax

theorem foldl_upd_getD_of_ne (M : SparseMat) (diff : ℚ) (i : Nat) :
    ∀ (ks : List Nat) (Ax : List ℚ),
      (∀ k ∈ ks, M.indices.getD k 0 ≠ i) →
      (ks.foldl (fun A k => A.set (M.indices.getD k 0)
          (A.getD (M.indices.getD k 0) 0 + M.data.getD k 0 * diff)) Ax).getD i 0
        = Ax.getD i 0
  | [], _, _ => rfl
  | k :: ks, Ax, h => by
      simp only [List.foldl_cons]
      rw [foldl_upd_getD_of_ne M diff i ks _
        (fun k' hk' => h k' (List.mem_cons_of_mem _ hk'))]
      exact getD_set_of_ne _ _ _ _ (h k (List.mem_cons_self k ks))

theorem updateAx_getD_of_ne (M : SparseMat) (j : Nat) (diff : ℚ)
    (Ax : List ℚ) (i : Nat)
    (h : ∀ k ∈ colRange M j, M.indices.getD k 0 ≠ i) :
    (updateAx M j diff Ax).getD i 0 = Ax.getD i 0 :=
  foldl_upd_getD_of_ne M diff i (colRange M j) Ax h

theorem foldl_upd_getD (M : SparseMat) (diff : ℚ) (i : Nat) :
    ∀ (ks : List Nat) (Ax : List ℚ),
      (∀ k ∈ ks, M.indices.getD k 0 < Ax.length) →
      (ks.foldl (fun A k => A.set (M.indices.getD k 0)
          (A.getD (M.indices.getD k 0) 0 + M.data.getD k 0 * diff)) Ax).getD i 0
        = Ax.getD i 0
          + ((ks.filter (fun k => M.indices.getD k 0 == i)).map
              (fun k => M.data.getD k 0)).sum * diff
  | [], Ax, _ => by simp
  | k :: ks, Ax, h => by
      simp only [List.foldl_cons]
      rw [foldl_upd_getD M diff i ks _ (by
        intro k' hk'
        rw [List.length_set]
        exact h k' (List.mem_cons_of_mem _ hk'))]
      rw [List.filter_cons]
      by_cases hki : M.indices.getD k 0 = i
      · rw [if_pos (by simpa using hki)]
        rw [hki, getD_set_self _ _ _ (hki ▸ h k (List.mem_cons_self k ks))]
        simp only [List.map_cons, List.sum_cons]
        ring
      · rw [if_neg (by simpa using hki)]
        rw [getD_set_of_ne _ _ _ _ hki]

theorem updateAx_getD (M : SparseMat) (j : Nat) (diff : ℚ) (Ax : List ℚ)
    (i : Nat) (h : ∀ k ∈ colRange M j, M.indices.getD k 0 < Ax.length) :
    (updateAx M j diff Ax).getD i 0 = Ax.getD i 0 + cscEntry M i j * diff :=
  foldl_upd_getD M diff i (colRange M j) Ax h

theorem recomputeAx_zero (M : SparseMat) (x : List ℚ) (Ax : List ℚ) :
    recomputeAx M x 0 Ax = Ax := rfl

theorem recomputeAx_succ (M : SparseMat) (x : List ℚ) (n : Nat)
    (Ax : List ℚ) :
    recomputeAx M x (n + 1) Ax
      = (recomputeAx M x n Ax).set n (csrRowDot M x n) := by
  unfold recomputeAx
  rw [List.range_succ, List.foldl_append]
  rfl

theorem recomputeAx_length (M : SparseMat) (x : List ℚ) :
    ∀ (n : Nat) (Ax : List ℚ), (recomputeAx M x n Ax).length = Ax.length
  | 0, _ => rfl
  | n + 1, Ax => by
      rw [recomputeAx_succ, List.length_set, recomputeAx_length M x n]

theorem recomputeAx_getD (M : SparseMat) (x : List ℚ) (i : Nat) :
    ∀ (n : Nat) (Ax : List ℚ),
      (recomputeAx M x n Ax).getD i 0
        = if i < n ∧ i < Ax.length then csrRowDot M x i else Ax.getD i 0
  | 0, Ax => by simp [recomputeAx_zero]
  | n + 1, Ax => by
      rw [recomputeAx_succ]
      by_cases hin : i = n
      · by_cases hlen : i < Ax.length
        · have hn : n < (recomputeAx M x n Ax).length := by
            rw [recomputeAx_length]; omega
          rw [hin, getD_set_self _ _ _ hn]
          rw [if_pos (by omega : n < n + 1 ∧ n < Ax.length)]
        · rw [List.set_eq_of_length_le (by rw [recomputeAx_length]; omega),
            recomputeAx_getD M x i n Ax]
          rw [if_neg (by omega : ¬(i < n ∧ i < Ax.length)),
            if_neg (by omega : ¬(i < n + 1 ∧ i < Ax.length))]
      · rw [getD_set_of_ne _ _ _ _ (fun hh => hin hh.symm),
          recomputeAx_getD M x i n Ax]
        by_cases hc : i < n ∧ i < Ax.length
        · rw [if_pos hc, if_pos (by omega : i < n + 1 ∧ i < Ax.length)]
        · rw [if_neg hc, if_neg (by omega : ¬(i < n + 1 ∧ i < Ax.length))]

theorem csrRowDot_empty_row (M : SparseMat) (x : List ℚ) (i : Nat)
    (h : M.indptr.getD i 0 = M.indptr.getD (i + 1) 0) : csrRowDot M x i = 0 := by
  unfold csrRowDot colRange
  rw [h, pyRange_self]
  rfl

/-- The outer loop of _bcd_algorithm runs for it in range(1, max_iter), so
the state it returns is the one reached after max_iter - 1 passes. -/
theorem bcdFold_eq (P : BCDParams) (perms : Nat → List Nat)
    (st0 : BCDState) (m : Nat) :
    ((pyRange 1 m).foldl
       (fun (p : BCDState × Nat) it => (bcdEpoch P (perms it) p.1, it))
       (st0, 0)).1
      = bcdNthState P perms st0 (m - 1) := by
  induction m with
  | zero => rfl
  | succ n ih =>
    rcases n with _ | k
    · rfl
    · rw [pyRange_concat (by omega : 1 ≤ k + 1), List.foldl_append]
      simp only [List.foldl_cons, List.foldl_nil]
      show bcdEpoch P (perms (k + 1)) _ = _
      rw [ih]
      rfl

theorem minimizelp_SAGA_isError (f_deriv : ℚ → ℚ → ℚ) (n_samples : Nat)
    (x0 : List ℚ) (alpha beta : ℚ) (step_size : Option ℚ) (max_iter : Nat)
    (tol : ℚ) :
    ∃ e, minimizelp_SAGA f_deriv n_samples x0 alpha beta step_size max_iter
      tol = Except.error e := by
  cases step_size with
  | none => exact ⟨PyError.valueError, rfl⟩
  | some s =>
      unfold minimizelp_SAGA factory_SAGA_epoch
      split_ifs <;> exact ⟨_, rfl⟩

/-- C1: for every input with a non-None step_size, minimizelp_SAGA raises
an error before completing a single epoch and never returns an
OptimizeResult: the factory _factory_SAGA_epoch reads the unbound name A
(and its inner kernel reads the unbound partial_gradient, b, d, f_alpha),
so the success path is unreachable for all inputs. -/
theorem C1_saga_success_path_unreachable (f_deriv : ℚ → ℚ → ℚ)
    (n_samples : Nat) (x0 : List ℚ) (alpha beta : ℚ) (s : ℚ)
    (max_iter : Nat) (tol : ℚ) :
    ∃ e, minimizelp_SAGA f_deriv n_samples x0 alpha beta (some s) max_iter
      tol = Except.error e :=
  minimizelp_SAGA_isError f_deriv n_samples x0 alpha beta (some s) max_iter
    tol

/-- C2, counterexample: with step_size unset, minimize_BCD does not raise a
configuration error; on the concrete one-feature least-squares instance it
produces a full result object, identical to the one obtained by passing
step_size = 1/2 = 1 / f.lipschitz_constant('features') explicitly, and its
coefficient was updated using that substituted default step. -/
theorem C2_cx_bcd_substitutes_default :
    (minimize_BCD fC none (some [0]) none 2 false 0 permsC).x = [1]
  ∧ minimize_BCD fC none (some [0]) none 2 false 0 permsC
      = minimize_BCD fC none (some [0]) (some (1/2)) 2 false 0 permsC := by
  exact ⟨by decide, by decide⟩

/-- C2, amended: when step_size is None, minimizelp_SAGA raises ValueError
and produces no result object, but minimize_BCD does not raise: it silently
substitutes 1 / f.lipschitz_constant('features') as the step size and
proceeds to produce a result. -/
theorem C2_step_size_unset (f_deriv : ℚ → ℚ → ℚ) (n_samples : Nat)
    (x0s : List ℚ) (alpha beta : ℚ) (max_iterS : Nat) (tolS : ℚ)
    (f : SmoothLoss) (g : Option Penalty) (x0 : Option (List ℚ))
    (max_iter : Nat) (trace : Bool) (tol : ℚ) (perms : Nat → List Nat) :
    minimizelp_SAGA f_deriv n_samples x0s alpha beta none max_iterS tolS
      = Except.error PyError.valueError
  ∧ minimize_BCD f g x0 none max_iter trace tol perms
      = minimize_BCD f g x0 (some (1 / f.lipschitz)) max_iter trace tol
          perms :=
  ⟨rfl, rfl⟩

theorem minimize_BCD_x (f : SmoothLoss) (g : Option Penalty)
    (x0 : Option (List ℚ)) (step_size : Option ℚ) (max_iter : Nat)
    (trace : Bool) (tol : ℚ) (perms : Nat → List Nat) :
    (minimize_BCD f g x0 step_size max_iter trace tol perms).x
      = (bcdNthState (bcdParamsOf f (g.getD ZeroLoss) (bcdStepOf f step_size))
          perms (bcdInitState f (bcdX0 f x0)) (max_iter - 1)).x := by
  show ((pyRange 1 max_iter).foldl _ (bcdInitState f (bcdX0 f x0), 0)).1.x = _
  rw [bcdFold_eq]

/-- C3, counterexample: with max_iter = 1 on the concrete one-feature
least-squares instance, minimize_BCD returns the initial coefficients
unchanged, while one full epoch moves the coefficient to 1; so it does not
perform max_iter epochs. -/
theorem C3_cx_one_iter_runs_no_epoch :
    (minimize_BCD fC none (some [0]) (some (1/2)) 1 false 0 permsC).x = [0]
  ∧ (bcdNthState (bcdParamsOf fC ZeroLoss (1/2)) permsC
      (bcdInitState fC [0]) 1).x = [1]
  ∧ ([0] : List ℚ) ≠ [1] := by
  exact ⟨by decide, by decide, by decide⟩

/-- C3, amended: for every input with max_iter > 0, minimize_BCD performs
exactly max_iter - 1 full epochs (its outer loop is for it in
range(1, max_iter)), so in particular zero epochs when max_iter = 1; the
tol parameter is accepted but never consulted, so the returned result is
identical for any two tolerance values. -/
theorem C3_bcd_epoch_count (f : SmoothLoss) (g : Option Penalty)
    (x0 : Option (List ℚ)) (step_size : Option ℚ) (max_iter : Nat)
    (trace : Bool) (tol tol' : ℚ) (perms : Nat → List Nat)
    (h : 0 < max_iter) :
    (minimize_BCD f g x0 step_size max_iter trace tol perms).x
      = (bcdNthState (bcdParamsOf f (g.getD ZeroLoss) (bcdStepOf f step_size))
          perms (bcdInitState f (bcdX0 f x0)) (max_iter - 1)).x
  ∧ minimize_BCD f g x0 step_size max_iter trace tol perms
      = minimize_BCD f g x0 step_size max_iter trace tol' perms := by
  have _ := h
  exact ⟨minimize_BCD_x f g x0 step_size max_iter trace tol perms, rfl⟩

theorem C3_bcd_epoch_count_witness :
    0 < 2
  ∧ (minimize_BCD fC none (some [0]) (some (1/2)) 2 false 3 permsC).x
      = (bcdNthState (bcdParamsOf fC ZeroLoss (1/2)) permsC
          (bcdInitState fC [0]) 1).x
  ∧ minimize_BCD fC none (some [0]) (some (1/2)) 2 false 3 permsC
      = minimize_BCD fC none (some [0]) (some (1/2)) 2 false 5 permsC := by
  refine ⟨by decide, ?_, ?_⟩
  · exact (C3_bcd_epoch_count fC none (some [0]) (some (1/2)) 2 false 3 5
      permsC (by decide)).1
  · exact (C3_bcd_epoch_count fC none (some [0]) (some (1/2)) 2 false 3 5
      permsC (by decide)).2

/-- C4: the claim expects the beta > 0 prox of _factory_SAGA_epoch to
return the soft-threshold value; the function body computes exactly that
expression but has no return statement, so it returns None instead — at
beta = 1, v = 3, gamma = 1 the claimed value is 2 but the function yields
None. -/
theorem C4_prox_missing_return :
    saga_prox_pos 1 3 1 = none
  ∧ softThreshold 1 3 1 = 2
  ∧ softThreshold 1 (1/2) 1 = 0 := by
  exact ⟨rfl, by decide, by decide⟩

/-- C8: on the concrete one-feature least-squares instance with trace
requested, the solve moves the coefficient to 1, yet the recorded
trace_func holds the objective of the never-written all-zero trace buffer
row (value 2 = f(0) + g(0)) instead of the objective 1/2 of the per-epoch
iterate: _bcd_algorithm never stores snapshots into trace_x. -/
theorem C8_trace_func_ignores_iterates :
    (minimize_BCD fC none (some [0]) (some (1/2)) 2 true 0 permsC).trace_func
      = [2]
  ∧ (minimize_BCD fC none (some [0]) (some (1/2)) 2 true 0 permsC).x = [1]
  ∧ fC.feval [0] + ZeroLoss.geval [0] = 2
  ∧ fC.feval [1] + ZeroLoss.geval [1] = 1/2
  ∧ (2 : ℚ) ≠ 1/2 := by
  exact ⟨by decide, by decide, by decide, by decide, by decide⟩

/-- C9: with max_iter = 0, minimizelp_SAGA raises (it raises on every
input), and minimize_BCD returns success = false, nit = 0 and the supplied
initial vector unchanged; no epoch is performed. -/
theorem C9_max_iter_zero (f_deriv : ℚ → ℚ → ℚ) (n_samples : Nat)
    (x0s : List ℚ) (alpha beta : ℚ) (step_sizeS : Option ℚ) (tolS : ℚ)
    (f : SmoothLoss) (g : Option Penalty) (v : List ℚ)
    (step_size : Option ℚ) (trace : Bool) (tol : ℚ)
    (perms : Nat → List Nat) :
    (∃ e, minimizelp_SAGA f_deriv n_samples x0s alpha beta step_sizeS 0 tolS
        = Except.error e)
  ∧ (minimize_BCD f g (some v) step_size 0 trace tol perms).success = false
  ∧ (minimize_BCD f g (some v) step_size 0 trace tol perms).nit = 0
  ∧ (minimize_BCD f g (some v) step_size 0 trace tol perms).x = v :=
  ⟨minimizelp_SAGA_isError f_deriv n_samples x0s alpha beta step_sizeS 0
    tolS, rfl, rfl, rfl⟩

/-- C10: every result minimize_BCD returns has success = false and
certificate = None, for all problems, parameters and epoch counts: success
is initialized False and never set, and _bcd_algorithm returns None as the
certificate. -/
theorem C10_bcd_never_succeeds (f : SmoothLoss) (g : Option Penalty)
    (x0 : Option (List ℚ)) (step_size : Option ℚ) (max_iter : Nat)
    (trace : Bool) (tol : ℚ) (perms : Nat → List Nat) :
    (minimize_BCD f g x0 step_size max_iter trace tol perms).success = false
  ∧ (minimize_BCD f g x0 step_size max_iter trace tol perms).certificate
      = none :=
  ⟨rfl, rfl⟩

theorem sagaEpochs_append (epoch : Nat → SAGAState → SAGAState) (tol : ℚ) :
    ∀ (l l' : List Nat) (st : SAGAState) (m : Nat) (st' : SAGAState)
      (m' : Nat),
      sagaEpochs epoch tol l (st, m) = (st', false, m') →
      sagaEpochs epoch tol (l ++ l') (st, m)
        = sagaEpochs epoch tol l' (st', m')
  | [], l', st, m, st', m', h => by
      simp only [sagaEpochs] at h
      obtain ⟨h1, _, h3⟩ := Prod.mk.injEq .. ▸ h
      cases h
      rfl
  | n :: rest, l', st, m, st', m', h => by
      simp only [sagaEpochs] at h ⊢
      by_cases hc : l1diff (epoch n st).x st.x < tol
      · rw [if_pos hc] at h
        cases h
      · rw [if_neg hc] at h ⊢
        exact sagaEpochs_append epoch tol rest l' (epoch n st) n st' m' h

theorem sagaEpochs_all_no_trigger (epoch : Nat → SAGAState → SAGAState)
    (tol : ℚ) (st0 : SAGAState) :
    ∀ (m : Nat), (∀ k, k < m → ¬ sagaTrigger epoch tol st0 k) →
      sagaEpochs epoch tol (pyRange 0 m) (st0, 0)
        = (sagaIter epoch st0 m, false, if m = 0 then 0 else m - 1)
  | 0, _ => by
      rw [pyRange_self]
      rfl
  | m + 1, h => by
      rw [pyRange_concat (Nat.zero_le m)]
      rw [sagaEpochs_append epoch tol (pyRange 0 m) [m] st0 0
        (sagaIter epoch st0 m) (if m = 0 then 0 else m - 1)
        (sagaEpochs_all_no_trigger epoch tol st0 m
          (fun k hk => h k (by omega)))]
      have hm := h m (by omega)
      simp only [sagaTrigger] at hm
      simp only [sagaEpochs, if_neg hm]
      rfl

theorem sagaEpochs_first_trigger (epoch : Nat → SAGAState → SAGAState)
    (tol : ℚ) (st0 : SAGAState) (t : Nat)
    (ht : sagaTrigger epoch tol st0 t)
    (hmin : ∀ k, k < t → ¬ sagaTrigger epoch tol st0 k)
    (m : Nat) (htm : t < m) :
    sagaEpochs epoch tol (pyRange 0 m) (st0, 0)
      = (sagaIter epoch st0 (t + 1), true, t) := by
  have hsplit : pyRange 0 t ++ pyRange t m = pyRange 0 m := by
    unfold pyRange
    have h1 : t - 0 = t := by omega
    rw [h1]
    have h2 : List.range' t (m - t) = List.range' (0 + t) (m - t) := by
      rw [Nat.zero_add]
    rw [h2, List.range'_append_1]
    have h3 : m - t + t = m - 0 := by omega
    rw [h3]
  rw [← hsplit]
  rw [sagaEpochs_append epoch tol (pyRange 0 t) (pyRange t m) st0 0
    (sagaIter epoch st0 t) (if t = 0 then 0 else t - 1)
    (sagaEpochs_all_no_trigger epoch tol st0 t hmin)]
  rw [pyRange_cons htm]
  simp only [sagaTrigger] at ht
  simp only [sagaEpochs, if_pos ht]
  rfl

/-- C5: the epoch loop of minimizelp_SAGA (lines 97-113, with the epoch
body abstracted as a function, since the factory never produces one)
implements exactly the stated policy: when the L1 coefficient change of
some epoch first falls strictly below tol, the driver stops there with
success = true and nit equal to that epoch index; when no epoch's change
falls below tol, it runs all max_iter epochs and returns success = false. -/
theorem C5_saga_termination_policy (epoch : Nat → SAGAState → SAGAState)
    (tol : ℚ) (st0 : SAGAState) (max_iter : Nat) :
    ((∀ k, k < max_iter → ¬ sagaTrigger epoch tol st0 k) →
      (sagaDriver epoch tol st0 max_iter).success = false
      ∧ (sagaDriver epoch tol st0 max_iter).x
          = (sagaIter epoch st0 max_iter).x)
  ∧ (∀ t, t < max_iter → sagaTrigger epoch tol st0 t →
      (∀ k, k < t → ¬ sagaTrigger epoch tol st0 k) →
      (sagaDriver epoch tol st0 max_iter).success = true
      ∧ (sagaDriver epoch tol st0 max_iter).nit = t
      ∧ (sagaDriver epoch tol st0 max_iter).x
          = (sagaIter epoch st0 (t + 1)).x) := by
  constructor
  · intro h
    unfold sagaDriver
    rw [sagaEpochs_all_no_trigger epoch tol st0 max_iter h]
    exact ⟨rfl, rfl⟩
  · intro t htm ht hmin
    unfold sagaDriver
    rw [sagaEpochs_first_trigger epoch tol st0 t ht hmin max_iter htm]
    exact ⟨rfl, rfl, rfl⟩

theorem C5_saga_termination_policy_witness :
    sagaTrigger (fun _ st => st) 1 ⟨[0], [], []⟩ 0
  ∧ (sagaDriver (fun _ st => st) 1 ⟨[0], [], []⟩ 2).success = true
  ∧ (sagaDriver (fun _ st => st) 1 ⟨[0], [], []⟩ 2).nit = 0 := by
  have ht : sagaTrigger (fun _ st => st) 1 ⟨[0], [], []⟩ 0 := by decide
  have h := (C5_saga_termination_policy (fun _ st => st) 1 ⟨[0], [], []⟩ 2).2
    0 (by omega) ht (fun k hk => absurd hk (by omega))
  exact ⟨ht, h.1, h.2.1⟩

/-- C6, counterexample: in an epoch with shuffled order [1, 0], processing
the first index of the order (feature 1) does not trigger the full
recompute of Ax — the stale entry 999 of the all-zero sample row survives
that step, although a recompute would have set it to the row dot product 0;
the recompute happens later in the pass, when the literal feature index 0
is processed. -/
theorem C6_cx_no_recompute_at_first_of_order :
    (bcdFeatureStep pC6 stC6 1).Ax.getD 2 0 = 999
  ∧ csrRowDot csrC6 (bcdFeatureStep pC6 stC6 1).x 2 = 0
  ∧ (bcdEpoch pC6 [1, 0] stC6).Ax.getD 2 0 = 0
  ∧ (999 : ℚ) ≠ 0 := by
  exact ⟨by decide, by decide, by decide, by decide⟩

/-- C6, amended: the full recomputation of Ax in _bcd_algorithm is
triggered exactly when the literal feature index 0 is processed, not when
the first index of the shuffled order is processed; since 0 occurs exactly
once in each shuffled order it still happens once per epoch, but at the
position of feature 0 in the order.  Observed through a sample row i0 that
stores no entry in any CSC column and whose CSR row is empty: a step on
feature j leaves Ax[i0] unchanged when j is not 0 and overwrites it with
the freshly recomputed row value 0 when j = 0. -/
theorem C6_recompute_on_literal_zero (P : BCDParams) (st : BCDState)
    (j i0 : Nat) (hj : j < P.nFeatures)
    (hptr : ∀ j', j' ≤ P.nFeatures →
      P.csc.indptr.getD j' 0 ≤ P.csc.indices.length)
    (hrow : ∀ k, k < P.csc.indices.length → P.csc.indices.getD k 0 ≠ i0)
    (hi0 : i0 < P.nSamples) (hlen : i0 < st.Ax.length)
    (hcsr : P.csr.indptr.getD i0 0 = P.csr.indptr.getD (i0 + 1) 0) :
    (bcdFeatureStep P st j).Ax.getD i0 0
      = if j = 0 then 0 else st.Ax.getD i0 0 := by
  have hne : ∀ k ∈ colRange P.csc j, P.csc.indices.getD k 0 ≠ i0 := by
    intro k hk
    have h1 := (mem_pyRange).1 hk
    have h2 := hptr (j + 1) (by omega)
    exact hrow k (by omega)
  by_cases hj0 : j = 0
  · simp only [bcdFeatureStep, if_pos hj0]
    rw [recomputeAx_getD]
    rw [if_pos ⟨hi0, by rw [updateAx_length]; exact hlen⟩]
    exact csrRowDot_empty_row P.csr _ i0 hcsr
  · simp only [bcdFeatureStep, if_neg hj0]
    exact updateAx_getD_of_ne P.csc j _ st.Ax i0 hne

theorem C6_recompute_on_literal_zero_witness :
    0 < pC6.nFeatures ∧ 2 < pC6.nSamples
  ∧ (bcdFeatureStep pC6 stC6 0).Ax.getD 2 0
      = if (0 : Nat) = 0 then 0 else stC6.Ax.getD 2 0 := by
  refine ⟨by decide, by decide, ?_⟩
  exact C6_recompute_on_literal_zero pC6 stC6 0 2 (by decide) (by decide)
    (by decide) (by decide) (by decide) (by decide)

theorem getD_map_range (g : Nat → ℚ) (n i : Nat) (h : i < n) :
    ((List.range n).map g).getD i 0 = g i := by
  rw [List.getD_eq_getElem?_getD, List.getElem?_map, List.getElem?_range h]
  rfl

theorem listDot_eq_sum_entries (M : SparseMat) (x : List ℚ) (nF : Nat) :
    ∀ (ks : List Nat), (∀ k ∈ ks, M.indices.getD k 0 < nF) →
      (ks.map (fun k => x.getD (M.indices.getD k 0) 0 * M.data.getD k 0)).sum
        = ∑ j ∈ Finset.range nF,
            ((ks.filter (fun k => M.indices.getD k 0 == j)).map
              (fun k => M.data.getD k 0)).sum * x.getD j 0
  | [], _ => by simp
  | k :: ks, h => by
      have hr : M.indices.getD k 0 < nF := h k (List.mem_cons_self k ks)
      simp only [List.map_cons, List.sum_cons, List.filter_cons]
      rw [listDot_eq_sum_entries M x nF ks
        (fun k' hk' => h k' (List.mem_cons_of_mem _ hk'))]
      have key : ∀ j ∈ Finset.range nF,
          ((if (M.indices.getD k 0 == j) = true
            then k :: ks.filter (fun k' => M.indices.getD k' 0 == j)
            else ks.filter (fun k' => M.indices.getD k' 0 == j)).map
              (fun k' => M.data.getD k' 0)).sum * x.getD j 0
          = ((ks.filter (fun k' => M.indices.getD k' 0 == j)).map
              (fun k' => M.data.getD k' 0)).sum * x.getD j 0
            + (if M.indices.getD k 0 = j
               then M.data.getD k 0 * x.getD (M.indices.getD k 0) 0
               else 0) := by
        intro j _
        by_cases hj : M.indices.getD k 0 = j
        · rw [if_pos (by simpa using hj), if_pos hj, hj]
          simp only [List.map_cons, List.sum_cons]
          ring
        · rw [if_neg (by simpa using hj), if_neg hj, add_zero]
      rw [Finset.sum_congr rfl key, Finset.sum_add_distrib,
        Finset.sum_ite_eq, if_pos (Finset.mem_range.mpr hr)]
      ring

theorem csrRowDot_eq_sum (M : SparseMat) (x : List ℚ) (i nF : Nat)
    (h : ∀ k ∈ colRange M i, M.indices.getD k 0 < nF) :
    csrRowDot M x i = ∑ j ∈ Finset.range nF, csrEntry M i j * x.getD j 0 :=
  listDot_eq_sum_entries M x nF (colRange M i) h

theorem sum_mul_getD_set (E : Nat → ℚ) (x : List ℚ) (j : Nat) (v : ℚ)
    (nF : Nat) (hj : j < nF) (hjx : j < x.length) :
    ∑ j' ∈ Finset.range nF, E j' * (x.set j v).getD j' 0
      = (∑ j' ∈ Finset.range nF, E j' * x.getD j' 0)
        + E j * (v - x.getD j 0) := by
  have key : ∀ j' ∈ Finset.range nF,
      E j' * (x.set j v).getD j' 0
        = E j' * x.getD j' 0
          + (if j = j' then E j' * (v - x.getD j 0) else 0) := by
    intro j' _
    by_cases hjj : j = j'
    · rw [← hjj, getD_set_self x j v hjx, if_pos rfl]
      ring
    · rw [getD_set_of_ne x j j' v hjj, if_neg hjj]
      ring
  rw [Finset.sum_congr rfl key, Finset.sum_add_distrib, Finset.sum_ite_eq,
    if_pos (Finset.mem_range.mpr hj)]

theorem colRange_bound (M : SparseMat) (j nF L : Nat) (hj : j < nF)
    (hptr : ∀ j', j' ≤ nF → M.indptr.getD j' 0 ≤ L) :
    ∀ k ∈ colRange M j, k < L := by
  intro k hk
  have h1 := (mem_pyRange).1 hk
  have h2 := hptr (j + 1) (by omega)
  omega

theorem bcdFeatureStep_preserves (P : BCDParams) (hwf : BCDWellFormed P)
    (st : BCDState) (j : Nat) (hj : j < P.nFeatures)
    (hx : st.x.length = P.nFeatures) (hAx : st.Ax.length = P.nSamples)
    (hinv : AxInv P st) :
    AxInv P (bcdFeatureStep P st j)
    ∧ (bcdFeatureStep P st j).x.length = P.nFeatures
    ∧ (bcdFeatureStep P st j).Ax.length = P.nSamples := by
  obtain ⟨hcscRow, hcscPtr, hcsrCol, hcsrPtr, hagree⟩ := hwf
  have hboundAx : ∀ k ∈ colRange P.csc j,
      P.csc.indices.getD k 0 < st.Ax.length := by
    intro k hk
    rw [hAx]
    exact hcscRow _ (colRange_bound P.csc j P.nFeatures _ hj hcscPtr k hk)
  have main : ∀ w : ℚ,
      AxInv P ⟨st.x.set j w, updateAx P.csc j (w - st.x.getD j 0) st.Ax⟩
      ∧ (st.x.set j w).length = P.nFeatures
      ∧ (updateAx P.csc j (w - st.x.getD j 0) st.Ax).length = P.nSamples := by
    intro w
    refine ⟨?_, by rw [List.length_set]; exact hx,
      by rw [updateAx_length]; exact hAx⟩
    intro i hi
    show (updateAx P.csc j (w - st.x.getD j 0) st.Ax).getD i 0 = _
    rw [updateAx_getD P.csc j _ st.Ax i hboundAx, hinv i hi]
    rw [sum_mul_getD_set (fun j' => cscEntry P.csc i j') st.x j w
      P.nFeatures hj (by omega)]
  have mainRec : ∀ w : ℚ,
      AxInv P ⟨st.x.set j w, recomputeAx P.csr (st.x.set j w) P.nSamples
        (updateAx P.csc j (w - st.x.getD j 0) st.Ax)⟩ := by
    intro w
    intro i hi
    show (recomputeAx P.csr (st.x.set j w) P.nSamples
      (updateAx P.csc j (w - st.x.getD j 0) st.Ax)).getD i 0 = _
    rw [recomputeAx_getD,
      if_pos ⟨hi, by rw [updateAx_length]; omega⟩]
    rw [csrRowDot_eq_sum P.csr (st.x.set j w) i P.nFeatures (by
      intro k hk
      exact hcsrCol _
        (colRange_bound P.csr i P.nSamples _ hi hcsrPtr k hk))]
    exact Finset.sum_congr rfl
      (fun j' hj' => by rw [hagree i hi j' (Finset.mem_range.1 hj')])
  by_cases hj0 : j = 0
  · simp only [bcdFeatureStep, if_pos hj0]
    exact ⟨mainRec _, by rw [List.length_set]; exact hx,
      by rw [recomputeAx_length, updateAx_length]; exact hAx⟩
  · simp only [bcdFeatureStep, if_neg hj0]
    exact main _

theorem bcdSteps_preserve (P : BCDParams) (hwf : BCDWellFormed P) :
    ∀ (js : List Nat) (st : BCDState), (∀ j ∈ js, j < P.nFeatures) →
      st.x.length = P.nFeatures → st.Ax.length = P.nSamples → AxInv P st →
      AxInv P (js.foldl (bcdFeatureStep P) st)
      ∧ (js.foldl (bcdFeatureStep P) st).x.length = P.nFeatures
      ∧ (js.foldl (bcdFeatureStep P) st).Ax.length = P.nSamples
  | [], st, _, hx, hAx, hinv => ⟨hinv, hx, hAx⟩
  | j :: js, st, h, hx, hAx, hinv => by
      simp only [List.foldl_cons]
      have step := bcdFeatureStep_preserves P hwf st j
        (h j (List.mem_cons_self j js)) hx hAx hinv
      exact bcdSteps_preserve P hwf js _
        (fun j' hj' => h j' (List.mem_cons_of_mem _ hj'))
        step.2.1 step.2.2 step.1

theorem bcdInitState_inv (f : SmoothLoss) (g : Penalty) (step : ℚ)
    (x0 : List ℚ) (hwf : BCDWellFormed (bcdParamsOf f g step)) :
    AxInv (bcdParamsOf f g step) (bcdInitState f x0) := by
  obtain ⟨_, _, hcsrCol, hcsrPtr, hagree⟩ := hwf
  intro i hi
  simp only [bcdParamsOf] at hi hcsrCol hcsrPtr hagree ⊢
  show ((List.range f.nSamples).map (fun i => csrRowDot f.csr x0 i)).getD i 0
    = _
  rw [getD_map_range _ _ _ hi]
  rw [csrRowDot_eq_sum f.csr x0 i f.nFeatures (by
    intro k hk
    exact hcsrCol _ (colRange_bound f.csr i f.nSamples _ hi hcsrPtr k hk))]
  exact Finset.sum_congr rfl
    (fun j' hj' => by rw [hagree i hi j' (Finset.mem_range.1 hj')]; rfl)

/-- C7: throughout a minimize_BCD solve over exact arithmetic, the cached
prediction satisfies Ax[i] = sum over j of A[i,j] * x[j] at every
observation point between coordinate updates: the invariant holds for the
initial state of line 207 (Ax = f.A.dot(x0)), and it is preserved by every
sequence of coordinate steps of _bcd_algorithm — each step adds
A[i,j] * (x_new - x[j]) to Ax[i] exactly over the stored entries of CSC
column j before x[j] is overwritten, and the periodic full recompute
rebuilds Ax from x alone — hence it holds after every prefix of every
epoch of the solve. -/
theorem C7_cached_prediction_invariant (f : SmoothLoss) (g : Penalty)
    (step : ℚ) (x0 : List ℚ) (js : List Nat)
    (hwf : BCDWellFormed (bcdParamsOf f g step))
    (hx0 : x0.length = f.nFeatures)
    (hjs : ∀ j ∈ js, j < f.nFeatures) :
    AxInv (bcdParamsOf f g step) (bcdInitState f x0)
    ∧ AxInv (bcdParamsOf f g step)
        (js.foldl (bcdFeatureStep (bcdParamsOf f g step))
          (bcdInitState f x0)) := by
  have hinit := bcdInitState_inv f g step x0 hwf
  refine ⟨hinit, (bcdSteps_preserve _ hwf js _ hjs hx0 ?_ hinit).1⟩
  show ((List.range f.nSamples).map _).length = _
  rw [List.length_map, List.length_range]
  rfl

theorem C7_cached_prediction_invariant_witness :
    BCDWellFormed (bcdParamsOf fC6 ZeroLoss (1/2))
  ∧ AxInv (bcdParamsOf fC6 ZeroLoss (1/2))
      ([1, 0].foldl (bcdFeatureStep (bcdParamsOf fC6 ZeroLoss (1/2)))
        (bcdInitState fC6 [1, 1])) := by
  have h := C7_cached_prediction_invariant fC6 ZeroLoss (1/2) [1, 1] [1, 0]
    (by decide) (by decide) (by decide)
  exact ⟨by decide, h.2⟩
